import Mathlib

/-!
Verification development for the NASA space-explorer widget (`js/script.js`).

The file shallowly embeds the date utilities, the feed loader and the
feed-to-gallery reconciliation logic of the script, on top of a model of the
ECMAScript `Date` semantics that the script relies on (`new Date(string)`,
`getDate`, `setDate`, `toISOString`):

* timestamps are integers counting minutes since the Unix epoch (the script
  never uses sub-minute precision, so the millisecond scale of ECMAScript is
  modelled at minute granularity);
* the host timezone is a parameter (`Tz`): ECMAScript exposes the local
  offset both as a function of UTC time (used by `getDate`) and as a function
  of local time (used when `setDate` converts the updated local time back to
  UTC);
* `new Date("YYYY-MM-DD")` parses date-only ISO strings as UTC midnight and
  yields an invalid date (modelled as `none`) otherwise; formats beyond the
  strict 10-character ISO date form are host-defined in ECMAScript and are
  modelled as unparseable;
* `toISOString().slice(0, 10)` is modelled by `isoStringOfDay`, including the
  expanded-year form (sign plus six year digits) that `toISOString` uses for
  years outside 0..9999, truncated to ten characters by the slice.

Calendar conversion between day numbers and civil dates uses the standard
era-based algorithms (equivalent to the ECMAScript `MakeDay` / `YearFromTime`
specification functions); all divisions are by positive constants, so Lean's
integer division (Euclidean) coincides with the floor division of the
ECMAScript specification.
-/

namespace SpaceExplorer

/-- Proleptic-Gregorian leap-year test (`y % 4 = 0 && (y % 100 != 0 || y % 400 = 0)`). -/
def isLeap (y : Int) : Bool :=
  y % 4 == 0 && (y % 100 != 0 || y % 400 == 0)

/-- Number of days in month `m` (1..12) of year `y`. -/
def daysInMonth (y m : Int) : Int :=
  if m = 2 then (if isLeap y then 29 else 28)
  else if m = 4 ∨ m = 6 ∨ m = 9 ∨ m = 11 then 30
  else 31

/-- A valid civil date: month in 1..12, day in 1..month length. -/
def ValidYMD (y m d : Int) : Prop :=
  1 ≤ m ∧ m ≤ 12 ∧ 1 ≤ d ∧ d ≤ daysInMonth y m

instance (y m d : Int) : Decidable (ValidYMD y m d) := by
  unfold ValidYMD; infer_instance

/-- Day number (days since 1970-01-01) of a civil date, era-based algorithm. -/
def daysFromCivil (y m d : Int) : Int :=
  let y' := if m ≤ 2 then y - 1 else y
  let era := y' / 400
  let yoe := y' - era * 400
  let mp := (m + 9) % 12
  let doy := (153 * mp + 2) / 5 + d - 1
  let doe := yoe * 365 + yoe / 4 - yoe / 100 + doy
  era * 146097 + doe - 719468

/-- Civil date `(year, month, day)` of a day number, era-based algorithm. -/
def civilFromDays (z : Int) : Int × Int × Int :=
  let z' := z + 719468
  let era := z' / 146097
  let doe := z' - era * 146097
  let yoe := (doe - doe / 1460 + doe / 36524 - doe / 146096) / 365
  let y := yoe + era * 400
  let doy := doe - (365 * yoe + yoe / 4 - yoe / 100)
  let mp := (5 * doy + 2) / 153
  let d := doy - (153 * mp + 2) / 5 + 1
  let m := if mp < 10 then mp + 3 else mp - 9
  (if m ≤ 2 then y + 1 else y, m, d)

/-- Successor of a civil date (used to relate consecutive day numbers to
calendar rollover). -/
def nextDay (y m d : Int) : Int × Int × Int :=
  if d < daysInMonth y m then (y, m, d + 1)
  else if m < 12 then (y, m + 1, 1)
  else (y + 1, 1, 1)

/-- Decimal digit character for `n % 10`. -/
def digitChar (n : Nat) : Char := Char.ofNat (48 + n % 10)

/-- Two-digit zero-padded decimal representation (of `n % 100`). -/
def pad2 (n : Nat) : List Char := [digitChar (n / 10), digitChar n]

/-- Four-digit zero-padded decimal representation (of `n % 10000`). -/
def pad4 (n : Nat) : List Char :=
  [digitChar (n / 1000), digitChar (n / 100), digitChar (n / 10), digitChar n]

/-- Six-digit zero-padded decimal representation (of `n % 1000000`). -/
def pad6 (n : Nat) : List Char :=
  [digitChar (n / 100000), digitChar (n / 10000), digitChar (n / 1000),
   digitChar (n / 100), digitChar (n / 10), digitChar n]

/-- Model of `date.toISOString().slice(0, 10)` applied to UTC day number `z`:
the `YYYY-MM-DD` form for years 0..9999, and the first ten characters of the
expanded-year form (`±YYYYYY-MM-DDT…`) that `toISOString` produces outside
that range. -/
def isoStringOfDay (z : Int) : String :=
  let c := civilFromDays z
  if 0 ≤ c.1 ∧ c.1 ≤ 9999 then
    String.mk (pad4 c.1.toNat ++ '-' :: pad2 c.2.1.toNat ++ '-' :: pad2 c.2.2.toNat)
  else
    String.mk ((if c.1 < 0 then '-' else '+') :: pad6 c.1.natAbs ++ '-' :: pad2 c.2.1.toNat)

/-- Decimal digit test by code point (`'0'` through `'9'`). -/
def isDigitCh (c : Char) : Bool := 48 ≤ c.toNat && c.toNat ≤ 57

/-- Model of `new Date(s)` on a string: a strict `YYYY-MM-DD` ISO date parses
to UTC midnight of that day (in minutes); anything else is an invalid date
(`none`). Components are range-checked exactly as ECMAScript range-checks ISO
date strings. -/
def parseISODate (s : String) : Option Int :=
  match s.data with
  | [y1, y2, y3, y4, s1, m1, m2, s2, d1, d2] =>
    if isDigitCh y1 && isDigitCh y2 && isDigitCh y3 && isDigitCh y4 &&
       s1 == '-' && isDigitCh m1 && isDigitCh m2 && s2 == '-' &&
       isDigitCh d1 && isDigitCh d2 then
      let y : Int := ((y1.toNat - 48) * 1000 + (y2.toNat - 48) * 100 +
                      (y3.toNat - 48) * 10 + (y4.toNat - 48) : Nat)
      let m : Int := ((m1.toNat - 48) * 10 + (m2.toNat - 48) : Nat)
      let d : Int := ((d1.toNat - 48) * 10 + (d2.toNat - 48) : Nat)
      if ValidYMD y m d then some (1440 * daysFromCivil y m d) else none
    else none
  | _ => none

/-- A JavaScript value that can sit in a feed entry's `date` field: a string,
`null`, or `undefined`/absent. -/
inductive JSVal where
  | str (s : String)
  | null
  | undef
deriving DecidableEq, Repr

/-- JavaScript truthiness of a `date` field value (`entry.date` in the
`if (entry && entry.date)` guard): non-empty strings are truthy, `""`,
`null` and `undefined` are falsy. -/
def jsTruthy : JSVal → Bool
  | .str s => !s.isEmpty
  | .null => false
  | .undef => false

/-- Model of `new Date(v)` on a feed value: strings are parsed as dates,
`null` coerces to timestamp 0 (the epoch), `undefined` gives an invalid date. -/
def jsNewDate : JSVal → Option Int
  | .str s => parseISODate s
  | .null => some 0
  | .undef => none

/-- The script's `formatDate` helper on a feed value:
`new Date(date).toISOString().slice(0, 10)`. `none` models the `RangeError`
that `toISOString` throws on an invalid date. -/
def formatDateJS (v : JSVal) : Option String :=
  (jsNewDate v).map (fun t => isoStringOfDay (t / 1440))

/-- Host timezone: the local offset (minutes east of UTC) as a function of UTC
time, and as a function of local time (ECMAScript consults the former in
`LocalTime` and the latter in `UTC`). A fixed-offset zone uses the same
constant for both. -/
structure Tz where
  ofsUtc : Int → Int
  ofsLocal : Int → Int

/-- The UTC timezone (offset 0, no transitions). -/
def tz0 : Tz := ⟨fun _ => 0, fun _ => 0⟩

/-- Model of `d.getDate()`: the day-of-month of the local time of `t`. -/
def jsGetDate (tz : Tz) (t : Int) : Int :=
  (civilFromDays ((t + tz.ofsUtc t) / 1440)).2.2

/-- Model of `d.setDate(n)`: replace the day-of-month of the local time of `t`
by `n` (with month overflow), keep the local time of day, convert back to UTC. -/
def jsSetDate (tz : Tz) (t n : Int) : Int :=
  let l := t + tz.ofsUtc t
  let c := civilFromDays (l / 1440)
  let l' := (daysFromCivil c.1 c.2.1 1 + (n - 1)) * 1440 + l % 1440
  l' - tz.ofsLocal l'

/-- The script's `nineDatesFrom(startIso)`: parse the start date, then for
`i = 0..8` copy the start date, `setDate(start.getDate() + i)` and
`formatDate` the result. `none` models the `RangeError` thrown by
`formatDate` when the start date does not parse. -/
def nineDatesFrom (tz : Tz) (startIso : String) : Option (List String) :=
  (parseISODate startIso).map (fun start =>
    (List.range 9).map (fun (i : Nat) =>
      isoStringOfDay (jsSetDate tz start (jsGetDate tz start + (i : Int)) / 1440)))

/-- A Central-European-style timezone around the 2021 spring DST transition:
offset +60 minutes (CET) before 2021-03-28T01:00Z, +120 minutes (CEST) after.
In local terms the clock jumps from 02:00 to 03:00 on 2021-03-28; per
ECMAScript, local times before the post-transition wall clock (03:00) use the
pre-transition offset. -/
def cetSpring2021 : Tz :=
  { ofsUtc := fun t => if t < 18714 * 1440 + 60 then 60 else 120
    ofsLocal := fun l => if l < 18714 * 1440 + 180 then 60 else 120 }

/-- A feed entry: the `date` field (the only field the loader and reconciler
inspect) plus the rest of the record (title, url, explanation, …), kept
opaque. -/
structure FeedEntry where
  date : JSVal
  payload : String
deriving DecidableEq, Repr

/-- The possible outcomes of `fetch(FEED_URL)` + `res.json()` as classified by
`fetchClassFeed`: the network call throws, the response status is
non-success (`!res.ok`), the JSON body is not an array, or it is an array of
records. -/
inductive FetchOutcome where
  | netError
  | httpError (status : Nat)
  | notArray
  | arrayResp (items : List FeedEntry)
deriving DecidableEq, Repr

/-- One step of the loader's `json.map(item => ({ ...item, date: formatDate(item.date) }))`:
normalize the entry's date, `none` when `formatDate` throws on it. -/
def normalizeEntry (e : FeedEntry) : Option FeedEntry :=
  (formatDateJS e.date).map (fun s => { e with date := .str s })

/-- The script's `fetchClassFeed`: empty array on network failure, non-success
status or non-array body; otherwise the array with every date normalized.
The normalizing `map` runs inside the same `try`, so a `formatDate` throw on
any single entry is caught and the whole call returns the empty array. -/
def fetchClassFeed : FetchOutcome → List FeedEntry
  | .netError => []
  | .httpError _ => []
  | .notArray => []
  | .arrayResp items =>
    match items.mapM normalizeEntry with
    | some l => l
    | none => []

/-- The `feedByDate` map. The script only ever calls `get` on it, so the
`Map` is modelled by its lookup function. -/
def DateMap := String → Option FeedEntry

/-- `feedByDate.set(k, e)`: later writes win on lookup. -/
def mapSet (m : DateMap) (k : String) (e : FeedEntry) : DateMap :=
  fun k' => if k' = k then some e else m k'

/-- The `feed.forEach` loop of `handleFetch` building `feedByDate`: entries
with a falsy `date` are skipped by the `if (entry && entry.date)` guard;
`formatDate(entry.date)` throwing on a truthy unparseable date aborts the
whole handler (modelled by `Except.error`). -/
def buildLookupGo (m : DateMap) : List FeedEntry → Except Unit DateMap
  | [] => .ok m
  | e :: rest =>
    if jsTruthy e.date then
      match formatDateJS e.date with
      | some k => buildLookupGo (mapSet m k e) rest
      | none => .error ()
    else buildLookupGo m rest

/-- `feedByDate` built from the whole feed, starting from the empty map. -/
def buildLookup (feed : List FeedEntry) : Except Unit DateMap :=
  buildLookupGo (fun _ => none) feed

/-- The reconciliation core of `handleFetch` (lines 216-226): build
`feedByDate` from the loaded feed, compute `wantedDates = nineDatesFrom(startIso)`,
then `wantedDates.map(date => feedByDate.get(date)).filter(Boolean)`.
`Except.error` models an exception reaching `handleFetch`'s `catch` block. -/
def handleFetchResults (tz : Tz) (startIso : String) (feed : List FeedEntry) :
    Except Unit (List FeedEntry) :=
  match buildLookup feed with
  | .error _ => .error ()
  | .ok m =>
    match nineDatesFrom tz startIso with
    | none => .error ()
    | some wanted => .ok (wanted.filterMap m)

/-- The DOM elements `setLoading` touches: whether `#loading` and
`#getImageBtn` exist in the page. -/
structure Dom where
  loadingPresent : Bool
  btnPresent : Bool

/-- UI state relevant to the loading toggle: the button's `disabled` flag, the
loading element's `hidden` flag, and a log of the `setLoading` calls that
were applied (argument values, in order), recording the temporal behaviour. -/
structure UiState where
  btnDisabled : Bool
  loadingHidden : Bool
  log : List Bool
deriving DecidableEq, Repr

/-- The script's `setLoading(show)`: a no-op when either element is missing,
otherwise un-hide/hide the loading element and disable/enable the button. -/
def setLoading (dom : Dom) (b : Bool) (st : UiState) : UiState :=
  if dom.loadingPresent && dom.btnPresent then
    { btnDisabled := b, loadingHidden := !b, log := st.log ++ [b] }
  else st

/-- The script's `handleFetch` (with `USE_APOD = false`): guard on a falsy
start-date value, then inside `try … catch … finally`: `setLoading(true)`,
await `fetchClassFeed()`, reconcile, render. The `catch` swallows any thrown
error (alert only) and the `finally` always runs `setLoading(false)`; the
second component is the rendered result (`none` when nothing was rendered
because of the guard or an error). -/
def handleFetch (dom : Dom) (tz : Tz) (startIso : String) (o : FetchOutcome)
    (st : UiState) : UiState × Option (List FeedEntry) :=
  if startIso = "" then (st, none)
  else
    let st1 := setLoading dom true st
    let feed := fetchClassFeed o
    let r := handleFetchResults tz startIso feed
    let st2 := setLoading dom false st1
    (st2, match r with | .ok res => some res | .error _ => none)

/-- The lookup key contributed by an entry to `feedByDate`: `none` when the
entry is skipped by the truthiness guard, otherwise its normalized date. -/
def entryKey (e : FeedEntry) : Option String :=
  if jsTruthy e.date then formatDateJS e.date else none

/-- The last entry of the list whose lookup key is `k` (the entry a
last-write-wins map lookup returns). -/
def lastKeyed (k : String) : List FeedEntry → Option FeedEntry
  | [] => none
  | e :: rest =>
    match lastKeyed k rest with
    | some e' => some e'
    | none => if entryKey e = some k then some e else none

theorem isLeap_iff (y : Int) : isLeap y = true ↔ (y % 4 = 0 ∧ (y % 100 ≠ 0 ∨ y % 400 = 0)) := by
  simp [isLeap, Bool.and_eq_true, Bool.or_eq_true, beq_iff_eq, bne_iff_ne]

theorem stageA1 (yoe doy doe : Int)
    (h0 : 0 ≤ yoe) (h1 : yoe ≤ 399) (h2 : 0 ≤ doy)
    (h3 : doy ≤ 364 ∨ (doy = 365 ∧ (yoe + 1) % 4 = 0 ∧ ((yoe + 1) % 100 ≠ 0 ∨ yoe + 1 = 400)))
    (hdoe : doe = yoe * 365 + yoe / 4 - yoe / 100 + doy) :
    doe / 36524 - doe / 146096 = yoe / 100 := by
  rcases lt_or_le yoe 100 with hc | hc1
  · have hb : 0 ≤ doe ∧ doe ≤ 36523 := by omega
    have e1 : doe / 36524 = 0 := by omega
    have e2 : doe / 146096 = 0 := by omega
    omega
  rcases lt_or_le yoe 200 with hc | hc2
  · have hb : 36524 ≤ doe ∧ doe ≤ 73047 := by omega
    have e1 : doe / 36524 = 1 := by omega
    have e2 : doe / 146096 = 0 := by omega
    omega
  rcases lt_or_le yoe 300 with hc | hc3
  · have hb : 73048 ≤ doe ∧ doe ≤ 109571 := by omega
    have e1 : doe / 36524 = 2 := by omega
    have e2 : doe / 146096 = 0 := by omega
    omega
  · have hb : 109572 ≤ doe ∧ doe ≤ 146096 := by omega
    omega

theorem stageA2 (yoe doy doe : Int)
    (h0 : 0 ≤ yoe) (h1 : yoe ≤ 399) (h2 : 0 ≤ doy)
    (h3 : doy ≤ 364 ∨ (doy = 365 ∧ (yoe + 1) % 4 = 0 ∧ ((yoe + 1) % 100 ≠ 0 ∨ yoe + 1 = 400)))
    (hdoe : doe = yoe * 365 + yoe / 4 - yoe / 100 + doy) :
    yoe / 4 + doy - 364 ≤ doe / 1460 ∧ doe / 1460 ≤ yoe / 4 + doy := by
  omega

theorem yoeRecover (yoe doy doe : Int)
    (h0 : 0 ≤ yoe) (h1 : yoe ≤ 399) (h2 : 0 ≤ doy)
    (h3 : doy ≤ 364 ∨ (doy = 365 ∧ (yoe + 1) % 4 = 0 ∧ ((yoe + 1) % 100 ≠ 0 ∨ yoe + 1 = 400)))
    (hdoe : doe = yoe * 365 + yoe / 4 - yoe / 100 + doy) :
    (doe - doe / 1460 + doe / 36524 - doe / 146096) / 365 = yoe := by
  have hA1 := stageA1 yoe doy doe h0 h1 h2 h3 hdoe
  have hA2 := stageA2 yoe doy doe h0 h1 h2 h3 hdoe
  omega

theorem stageB (mp d doy : Int)
    (hmp0 : 0 ≤ mp) (hmp1 : mp ≤ 11) (hd0 : 1 ≤ d) (hd1 : d ≤ 31)
    (h30 : mp = 1 ∨ mp = 3 ∨ mp = 6 ∨ mp = 8 → d ≤ 30)
    (h29 : mp = 11 → d ≤ 29)
    (hdoy : doy = (153 * mp + 2) / 5 + d - 1) :
    (5 * doy + 2) / 153 = mp := by
  interval_cases mp <;> omega

theorem civilFromDays_spec (z era yoe mp d doy doe : Int)
    (he0 : 0 ≤ yoe) (he1 : yoe ≤ 399)
    (hmp0 : 0 ≤ mp) (hmp1 : mp ≤ 11)
    (hd0 : 1 ≤ d) (hd1 : d ≤ 31)
    (h30 : mp = 1 ∨ mp = 3 ∨ mp = 6 ∨ mp = 8 → d ≤ 30)
    (h29 : mp = 11 → d ≤ 28 ∨ (d = 29 ∧ (yoe + 1) % 4 = 0 ∧ ((yoe + 1) % 100 ≠ 0 ∨ yoe + 1 = 400)))
    (hdoy : doy = (153 * mp + 2) / 5 + d - 1)
    (hdoe : doe = yoe * 365 + yoe / 4 - yoe / 100 + doy)
    (hz : z = era * 146097 + doe - 719468) :
    civilFromDays z = (if 10 ≤ mp then era * 400 + yoe + 1 else era * 400 + yoe,
                       if mp < 10 then mp + 3 else mp - 9, d) := by
  have hdoy0 : 0 ≤ doy := by omega
  have h3 : doy ≤ 364 ∨ (doy = 365 ∧ (yoe + 1) % 4 = 0 ∧ ((yoe + 1) % 100 ≠ 0 ∨ yoe + 1 = 400)) := by
    interval_cases mp <;> omega
  have hyoe := yoeRecover yoe doy doe he0 he1 hdoy0 h3 hdoe
  have hbounds : 0 ≤ doe ∧ doe ≤ 146096 := by
    have h5 : 0 ≤ (153 * mp + 2) / 5 ∧ (153 * mp + 2) / 5 ≤ 337 := by omega
    omega
  have q_era : (z + 719468) / 146097 = era := by omega
  have hmp' := stageB mp d doy hmp0 hmp1 hd0 hd1 h30 (fun h => by rcases h29 h with h' | h' <;> omega) hdoy
  simp only [civilFromDays]
  rw [q_era]
  have hXdoe : z + 719468 - era * 146097 = doe := by omega
  rw [hXdoe, hyoe]
  have hdoy' : doe - (365 * yoe + yoe / 4 - yoe / 100) = doy := by omega
  rw [hdoy', hmp']
  have hd' : doy - (153 * mp + 2) / 5 + 1 = d := by omega
  rw [hd']
  rcases lt_or_le mp 10 with hc | hc
  · rw [if_pos hc, if_neg (show ¬(mp + 3 ≤ 2) by omega), if_neg (show ¬((10:Int) ≤ mp) by omega)]
    simp only [Prod.mk.injEq]
    exact ⟨by ring, trivial⟩
  · rw [if_neg (show ¬(mp < 10) by omega), if_pos (show mp - 9 ≤ 2 by omega), if_pos hc]
    simp only [Prod.mk.injEq]
    exact ⟨by ring, trivial⟩

theorem daysInMonth_bounds (y m d : Int) (hm1 : 1 ≤ m) (hm2 : m ≤ 12) (hd0 : 1 ≤ d)
    (hd4 : d ≤ daysInMonth y m) :
    d ≤ 31 ∧ (m = 4 ∨ m = 6 ∨ m = 9 ∨ m = 11 → d ≤ 30) ∧
      (m = 2 → d ≤ 28 ∨ (d = 29 ∧ y % 4 = 0 ∧ (y % 100 ≠ 0 ∨ y % 400 = 0))) := by
  have hli := isLeap_iff y
  unfold daysInMonth at hd4
  split_ifs at hd4 with hA hB hC
  · have hmods := hli.mp hB
    exact ⟨by omega, fun hx => by omega, fun h2 => by omega⟩
  · have hmods : ¬(y % 4 = 0 ∧ (y % 100 ≠ 0 ∨ y % 400 = 0)) := fun hc => hB (hli.mpr hc)
    exact ⟨by omega, fun hx => by omega, fun h2 => by omega⟩
  · exact ⟨by omega, fun hx => by omega, fun h2 => by omega⟩
  · exact ⟨by omega, fun hx => by omega, fun h2 => by omega⟩

theorem civilFromDays_daysFromCivil (y m d : Int) (h : ValidYMD y m d) :
    civilFromDays (daysFromCivil y m d) = (y, m, d) := by
  obtain ⟨hm1, hm2, hd0, hd4⟩ := h
  have hd31 := daysInMonth_bounds y m d hm1 hm2 hd0 hd4
  rcases le_or_lt m 2 with hm | hm
  · have hres := civilFromDays_spec (daysFromCivil y m d) ((y - 1) / 400)
      (y - 1 - (y - 1) / 400 * 400) (m + 9) d
      ((153 * (m + 9) + 2) / 5 + d - 1)
      ((y - 1 - (y - 1) / 400 * 400) * 365 + (y - 1 - (y - 1) / 400 * 400) / 4
        - (y - 1 - (y - 1) / 400 * 400) / 100 + ((153 * (m + 9) + 2) / 5 + d - 1))
      (by omega) (by omega) (by omega) (by omega) hd0 hd31.1
      (fun hx => by omega)
      (fun h11 => by have := hd31.2.2 (by omega); omega)
      rfl rfl
      (by simp only [daysFromCivil]
          rw [if_pos hm]
          omega)
    rw [hres, if_pos (show (10:Int) ≤ m + 9 by omega), if_neg (show ¬(m + 9 < 10) by omega)]
    simp only [Prod.mk.injEq]
    exact ⟨by omega, by omega, trivial⟩
  · have hres := civilFromDays_spec (daysFromCivil y m d) (y / 400)
      (y - y / 400 * 400) (m - 3) d
      ((153 * (m - 3) + 2) / 5 + d - 1)
      ((y - y / 400 * 400) * 365 + (y - y / 400 * 400) / 4
        - (y - y / 400 * 400) / 100 + ((153 * (m - 3) + 2) / 5 + d - 1))
      (by omega) (by omega) (by omega) (by omega) hd0 hd31.1
      (fun hx => by have := hd31.2.1; omega)
      (fun h11 => by omega)
      rfl rfl
      (by simp only [daysFromCivil]
          rw [if_neg (show ¬(m ≤ 2) by omega)]
          omega)
    rw [hres, if_neg (show ¬((10:Int) ≤ m - 3) by omega), if_pos (show m - 3 < 10 by omega)]
    simp only [Prod.mk.injEq]
    exact ⟨by omega, by omega, trivial⟩

theorem nextDay_spec (y m d : Int) (h : ValidYMD y m d) :
    ValidYMD (nextDay y m d).1 (nextDay y m d).2.1 (nextDay y m d).2.2 ∧
      daysFromCivil (nextDay y m d).1 (nextDay y m d).2.1 (nextDay y m d).2.2 =
        daysFromCivil y m d + 1 := by
  obtain ⟨hm1, hm2, hd0, hd4⟩ := h
  have hli := isLeap_iff y
  unfold nextDay
  split_ifs with h1 h2
  all_goals dsimp only
  · refine ⟨⟨hm1, hm2, by omega, by omega⟩, ?_⟩
    simp only [daysFromCivil]
    split_ifs <;> omega
  · have hdl : d = daysInMonth y m := by omega
    have h28' : (28:Int) ≤ daysInMonth y (m + 1) := by
      unfold daysInMonth; split_ifs <;> omega
    refine ⟨⟨by omega, by omega, by omega, by omega⟩, ?_⟩
    simp only [daysInMonth] at hdl
    interval_cases m
    · norm_num at hdl; subst hdl; simp only [daysFromCivil]; norm_num; omega
    · rw [if_pos rfl] at hdl
      simp only [daysFromCivil]
      rw [if_neg (show ¬((2:Int) + 1 ≤ 2) by omega), if_pos (show (2:Int) ≤ 2 by omega)]
      split_ifs at hdl with hL
      · have hmods := hli.mp hL
        omega
      · have hmods : ¬(y % 4 = 0 ∧ (y % 100 ≠ 0 ∨ y % 400 = 0)) := fun hc => hL (hli.mpr hc)
        omega
    · norm_num at hdl; subst hdl; simp only [daysFromCivil]; norm_num; omega
    · norm_num at hdl; subst hdl; simp only [daysFromCivil]; norm_num; omega
    · norm_num at hdl; subst hdl; simp only [daysFromCivil]; norm_num; omega
    · norm_num at hdl; subst hdl; simp only [daysFromCivil]; norm_num; omega
    · norm_num at hdl; subst hdl; simp only [daysFromCivil]; norm_num; omega
    · norm_num at hdl; subst hdl; simp only [daysFromCivil]; norm_num; omega
    · norm_num at hdl; subst hdl; simp only [daysFromCivil]; norm_num; omega
    · norm_num at hdl; subst hdl; simp only [daysFromCivil]; norm_num; omega
    · norm_num at hdl; subst hdl; simp only [daysFromCivil]; norm_num; omega
  · have hm12 : m = 12 := by omega
    subst hm12
    have hdim : daysInMonth y 12 = 31 := by norm_num [daysInMonth]
    have hdl : d = 31 := by omega
    subst hdl
    have hdim1 : daysInMonth (y + 1) 1 = 31 := by norm_num [daysInMonth]
    refine ⟨⟨by omega, by omega, by omega, by omega⟩, ?_⟩
    simp only [daysFromCivil]
    norm_num
    omega

theorem isLeap_sub400 (y : Int) : isLeap (y - 400) = isLeap y := by
  have h1 := isLeap_iff (y - 400)
  have h2 := isLeap_iff y
  cases hA : isLeap (y - 400) <;> cases hB : isLeap y
  · rfl
  · rw [hA] at h1; rw [hB] at h2
    exfalso
    have := h2.mp rfl
    have h3 : ¬((y - 400) % 4 = 0 ∧ ((y - 400) % 100 ≠ 0 ∨ (y - 400) % 400 = 0)) := by
      intro hc; exact absurd (h1.mpr hc) (by simp)
    omega
  · rw [hA] at h1; rw [hB] at h2
    exfalso
    have := h1.mp rfl
    have h3 : ¬(y % 4 = 0 ∧ (y % 100 ≠ 0 ∨ y % 400 = 0)) := by
      intro hc; exact absurd (h2.mpr hc) (by simp)
    omega
  · rfl

theorem dfc_shift400 (y m d : Int) (h : ValidYMD y m d) :
    ValidYMD (y - 400) m d ∧ daysFromCivil (y - 400) m d = daysFromCivil y m d - 146097 := by
  obtain ⟨hm1, hm2, hd0, hd4⟩ := h
  have hdim : daysInMonth (y - 400) m = daysInMonth y m := by
    unfold daysInMonth; rw [isLeap_sub400]
  refine ⟨⟨hm1, hm2, hd0, by omega⟩, ?_⟩
  simp only [daysFromCivil]
  split_ifs <;> omega

theorem dfc_surj_nat (n : Nat) :
    ∃ y m d, ValidYMD y m d ∧ daysFromCivil y m d = (n : Int) := by
  induction n with
  | zero => exact ⟨1970, 1, 1, by decide, by decide⟩
  | succ k ih =>
    obtain ⟨y, m, d, hv, he⟩ := ih
    obtain ⟨hv', he'⟩ := nextDay_spec y m d hv
    refine ⟨_, _, _, hv', ?_⟩
    rw [he', he]
    push_cast
    ring

theorem dfc_surj_shift (k : Nat) (y m d : Int) (hv : ValidYMD y m d) :
    ∃ y', ValidYMD y' m d ∧ daysFromCivil y' m d = daysFromCivil y m d - 146097 * k := by
  induction k with
  | zero => exact ⟨y, hv, by push_cast; ring⟩
  | succ j ih =>
    obtain ⟨y', hv', he'⟩ := ih
    obtain ⟨hv'', he''⟩ := dfc_shift400 y' m d hv'
    refine ⟨y' - 400, hv'', ?_⟩
    rw [he'', he']
    push_cast
    ring

theorem dfc_surjective (z : Int) :
    ∃ y m d, ValidYMD y m d ∧ daysFromCivil y m d = z := by
  rcases le_or_lt 0 z with hz | hz
  · obtain ⟨y, m, d, hv, he⟩ := dfc_surj_nat z.toNat
    exact ⟨y, m, d, hv, by rwa [Int.toNat_of_nonneg hz] at he⟩
  · have h1 : 0 ≤ z + 146097 * ((-z) / 146097 + 1) := by omega
    have h2 : 0 ≤ (-z) / 146097 + 1 := by omega
    obtain ⟨y, m, d, hv, he⟩ := dfc_surj_nat (z + 146097 * ((-z) / 146097 + 1)).toNat
    obtain ⟨y', hv', he'⟩ := dfc_surj_shift ((-z) / 146097 + 1).toNat y m d hv
    refine ⟨y', m, d, hv', ?_⟩
    rw [he', he, Int.toNat_of_nonneg h1, Int.toNat_of_nonneg h2]
    ring

theorem daysFromCivil_civilFromDays (z : Int) :
    ValidYMD (civilFromDays z).1 (civilFromDays z).2.1 (civilFromDays z).2.2 ∧
      daysFromCivil (civilFromDays z).1 (civilFromDays z).2.1 (civilFromDays z).2.2 = z := by
  obtain ⟨y, m, d, hv, he⟩ := dfc_surjective z
  have hcd := civilFromDays_daysFromCivil y m d hv
  rw [he] at hcd
  rw [hcd]
  exact ⟨hv, he⟩

theorem civilFromDays_succ (z : Int) :
    civilFromDays (z + 1) =
      nextDay (civilFromDays z).1 (civilFromDays z).2.1 (civilFromDays z).2.2 := by
  obtain ⟨hv, he⟩ := daysFromCivil_civilFromDays z
  obtain ⟨hv', he'⟩ := nextDay_spec _ _ _ hv
  have hcd := civilFromDays_daysFromCivil _ _ _ hv'
  rw [he', he] at hcd
  rw [hcd]

theorem yearOfDay_succ_ge (z : Int) : (civilFromDays z).1 ≤ (civilFromDays (z + 1)).1 := by
  rw [civilFromDays_succ]
  unfold nextDay
  split_ifs <;> dsimp only <;> omega

theorem yearOfDay_add_nat (z : Int) (k : Nat) :
    (civilFromDays z).1 ≤ (civilFromDays (z + k)).1 := by
  induction k with
  | zero => simp
  | succ j ih =>
    have hstep := yearOfDay_succ_ge (z + j)
    have hcast : (z + ((j : Nat) + 1 : Nat) : Int) = (z + j) + 1 := by push_cast; ring
    rw [hcast]
    exact le_trans ih hstep

theorem yearOfDay_mono (z w : Int) (h : z ≤ w) : (civilFromDays z).1 ≤ (civilFromDays w).1 := by
  have hk : w = z + ((w - z).toNat : Int) := by omega
  rw [hk]
  exact yearOfDay_add_nat z (w - z).toNat

theorem dfc_day (y m d : Int) : daysFromCivil y m d = daysFromCivil y m 1 + d - 1 := by
  simp only [daysFromCivil]
  split_ifs <;> omega


theorem digitChar_isDigitCh (n : Nat) : isDigitCh (digitChar n) = true := by
  have h : n % 10 < 10 := Nat.mod_lt _ (by norm_num)
  unfold digitChar
  set k := n % 10 with hk
  interval_cases k <;> decide

theorem digitChar_toNat (n : Nat) : (digitChar n).toNat = 48 + n % 10 := by
  have h : n % 10 < 10 := Nat.mod_lt _ (by norm_num)
  unfold digitChar
  set k := n % 10 with hk
  interval_cases k <;> decide

theorem parseISODate_pad (y m d : Int) (hy0 : 0 ≤ y) (hy1 : y ≤ 9999)
    (hm0 : 0 ≤ m) (hm1 : m ≤ 99) (hd0 : 0 ≤ d) (hd1 : d ≤ 99) :
    parseISODate (String.mk (pad4 y.toNat ++ '-' :: pad2 m.toNat ++ '-' :: pad2 d.toNat)) =
      if ValidYMD y m d then some (1440 * daysFromCivil y m d) else none := by
  simp only [pad4, pad2, List.cons_append, List.nil_append]
  simp only [parseISODate]
  simp only [digitChar_isDigitCh, digitChar_toNat, Bool.and_true, Bool.true_and,
    beq_self_eq_true, if_true]
  have hY : (((48 + y.toNat / 1000 % 10 - 48) * 1000 + (48 + y.toNat / 100 % 10 - 48) * 100 +
      (48 + y.toNat / 10 % 10 - 48) * 10 + (48 + y.toNat % 10 - 48) : Nat) : Int) = y := by
    omega
  have hM : (((48 + m.toNat / 10 % 10 - 48) * 10 + (48 + m.toNat % 10 - 48) : Nat) : Int) = m := by
    omega
  have hD : (((48 + d.toNat / 10 % 10 - 48) * 10 + (48 + d.toNat % 10 - 48) : Nat) : Int) = d := by
    omega
  rw [hY, hM, hD]

theorem daysInMonth_le31 (y m : Int) : daysInMonth y m ≤ 31 := by
  unfold daysInMonth; split_ifs <;> omega

theorem parse_isoStringOfDay (z : Int)
    (h0 : 0 ≤ (civilFromDays z).1) (h1 : (civilFromDays z).1 ≤ 9999) :
    parseISODate (isoStringOfDay z) = some (1440 * z) := by
  obtain ⟨hv, he⟩ := daysFromCivil_civilFromDays z
  obtain ⟨hm1, hm2, hd1, hd2⟩ := hv
  have h31 := daysInMonth_le31 (civilFromDays z).1 (civilFromDays z).2.1
  simp only [isoStringOfDay]
  rw [if_pos ⟨h0, h1⟩]
  rw [parseISODate_pad _ _ _ h0 h1 (by omega) (by omega) (by omega) (by omega)]
  rw [if_pos ⟨hm1, hm2, hd1, hd2⟩, he]

theorem isoStringOfDay_inj (z w : Int)
    (hz0 : 0 ≤ (civilFromDays z).1) (hz1 : (civilFromDays z).1 ≤ 9999)
    (hw0 : 0 ≤ (civilFromDays w).1) (hw1 : (civilFromDays w).1 ≤ 9999)
    (h : isoStringOfDay z = isoStringOfDay w) : z = w := by
  have h1 := parse_isoStringOfDay z hz0 hz1
  have h2 := parse_isoStringOfDay w hw0 hw1
  rw [h, h2] at h1
  simp only [Option.some.injEq] at h1
  omega

theorem parseISODate_spec (s : String) (t : Int) (hp : parseISODate s = some t) :
    t = 1440 * (t / 1440) ∧ 0 ≤ (civilFromDays (t / 1440)).1 ∧
      (civilFromDays (t / 1440)).1 ≤ 9999 := by
  obtain ⟨l⟩ := s
  rcases l with _ | ⟨y1, _ | ⟨y2, _ | ⟨y3, _ | ⟨y4, _ | ⟨s1, _ | ⟨m1, _ | ⟨m2, _ | ⟨s2, _ | ⟨d1, _ | ⟨d2, _ | ⟨c11, rest⟩⟩⟩⟩⟩⟩⟩⟩⟩⟩⟩ <;>
    simp only [parseISODate] at hp <;>
    try exact (Option.noConfusion hp)
  split_ifs at hp with hg hvld
  simp only [Option.some.injEq] at hp
  set Y : Int := (((y1.toNat - 48) * 1000 + (y2.toNat - 48) * 100 +
    (y3.toNat - 48) * 10 + (y4.toNat - 48) : Nat) : Int) with hYdef
  set M : Int := (((m1.toNat - 48) * 10 + (m2.toNat - 48) : Nat) : Int) with hMdef
  set D : Int := (((d1.toNat - 48) * 10 + (d2.toNat - 48) : Nat) : Int) with hDdef
  simp only [isDigitCh, Bool.and_eq_true, decide_eq_true_eq] at hg
  have hY9 : 0 ≤ Y ∧ Y ≤ 9999 := by rw [hYdef]; omega
  have hzval : t / 1440 = daysFromCivil Y M D := by omega
  have hcd := civilFromDays_daysFromCivil Y M D hvld
  rw [hzval, hcd]
  refine ⟨by omega, by omega, by omega⟩

theorem jsSetDate_getDate_tz0 (z i : Int) :
    jsSetDate tz0 (1440 * z) (jsGetDate tz0 (1440 * z) + i) = 1440 * (z + i) := by
  obtain ⟨hv, he⟩ := daysFromCivil_civilFromDays z
  have hd := dfc_day (civilFromDays z).1 (civilFromDays z).2.1 (civilFromDays z).2.2
  simp only [jsSetDate, jsGetDate, tz0]
  have h1 : (1440 * z + 0) / 1440 = z := by omega
  have h2 : (1440 * z + 0) % 1440 = 0 := by omega
  rw [h1]
  omega

theorem nineDatesFrom_tz0 (s : String) (t : Int) (hp : parseISODate s = some t) :
    nineDatesFrom tz0 s =
      some ((List.range 9).map (fun (i : Nat) => isoStringOfDay (t / 1440 + (i : Int)))) := by
  obtain ⟨ht, h0, h1⟩ := parseISODate_spec s t hp
  unfold nineDatesFrom
  rw [hp]
  simp only [Option.map_some']
  congr 1
  apply List.map_congr_left
  intro a ha
  have hset := jsSetDate_getDate_tz0 (t / 1440) a
  rw [ht]
  congr 1
  rw [hset]
  omega


theorem entryKey_truthy (e : FeedEntry) (k : String) (h : entryKey e = some k) :
    jsTruthy e.date = true ∧ formatDateJS e.date = some k := by
  unfold entryKey at h
  split_ifs at h with ht
  exact ⟨ht, h⟩

theorem lastKeyed_mem (k : String) (l : List FeedEntry) (e : FeedEntry)
    (h : lastKeyed k l = some e) : e ∈ l ∧ entryKey e = some k := by
  induction l with
  | nil => simp [lastKeyed] at h
  | cons a rest ih =>
    simp only [lastKeyed] at h
    cases hr : lastKeyed k rest with
    | some e' =>
      rw [hr] at h
      simp only [Option.some.injEq] at h
      subst h
      obtain ⟨h1, h2⟩ := ih hr
      exact ⟨List.mem_cons_of_mem a h1, h2⟩
    | none =>
      rw [hr] at h
      split_ifs at h with hk
      simp only [Option.some.injEq] at h
      subst h
      exact ⟨List.mem_cons_self a rest, hk⟩

theorem lastKeyed_eq_none (k : String) (l : List FeedEntry)
    (h : ∀ x ∈ l, entryKey x ≠ some k) : lastKeyed k l = none := by
  induction l with
  | nil => rfl
  | cons a rest ih =>
    simp only [lastKeyed]
    rw [ih (fun x hx => h x (List.mem_cons_of_mem a hx))]
    rw [if_neg (h a (List.mem_cons_self a rest))]

theorem mem_lastKeyed (k : String) (l : List FeedEntry) (e : FeedEntry)
    (hnd : (l.filterMap entryKey).Nodup) (he : e ∈ l) (hk : entryKey e = some k) :
    lastKeyed k l = some e := by
  induction l with
  | nil => simp at he
  | cons a rest ih =>
    have hndr : (rest.filterMap entryKey).Nodup :=
      List.Nodup.sublist (List.Sublist.filterMap entryKey (List.sublist_cons_self a rest)) hnd
    rcases List.mem_cons.mp he with rfl | hmem
    · have hnone : lastKeyed k rest = none := by
        apply lastKeyed_eq_none
        intro x hx hxk
        have hkm : k ∈ rest.filterMap entryKey := List.mem_filterMap.mpr ⟨x, hx, hxk⟩
        have : (List.filterMap entryKey (e :: rest)) = k :: rest.filterMap entryKey := by
          simp [List.filterMap_cons, hk]
        rw [this] at hnd
        exact (List.nodup_cons.mp hnd).1 hkm
      simp only [lastKeyed, hnone]
      rw [if_pos hk]
    · simp only [lastKeyed, ih hndr hmem]

theorem buildLookupGo_ok_lookup (l : List FeedEntry) (m0 m : DateMap)
    (h : buildLookupGo m0 l = .ok m) (k : String) :
    m k = match lastKeyed k l with
          | some e => some e
          | none => m0 k := by
  induction l generalizing m0 with
  | nil =>
    simp only [buildLookupGo, Except.ok.injEq] at h
    subst h
    rfl
  | cons a rest ih =>
    simp only [buildLookupGo] at h
    simp only [lastKeyed]
    by_cases ht : jsTruthy a.date = true
    · rw [if_pos ht] at h
      cases hf : formatDateJS a.date with
      | none => rw [hf] at h; exact absurd h (by simp)
      | some k' =>
        rw [hf] at h
        have := ih (mapSet m0 k' a) h
        rw [this]
        have hka : entryKey a = some k' := by unfold entryKey; rw [if_pos ht, hf]
        cases hr : lastKeyed k rest with
        | some e' => rfl
        | none =>
          simp only []
          unfold mapSet
          rw [hka]
          by_cases hkk : k = k'
          · subst hkk
            rw [if_pos rfl, if_pos rfl]
          · rw [if_neg hkk, if_neg (by simpa using fun hc => hkk hc.symm)]
    · simp only [Bool.not_eq_true] at ht
      rw [if_neg (by simp [ht])] at h
      have := ih m0 h
      rw [this]
      have hka : entryKey a = none := by unfold entryKey; rw [if_neg (by simp [ht])]
      cases hr : lastKeyed k rest with
      | some e' => rfl
      | none => rw [hka]; simp

theorem buildLookup_ok_lookup (feed : List FeedEntry) (m : DateMap)
    (h : buildLookup feed = .ok m) (k : String) : m k = lastKeyed k feed := by
  have := buildLookupGo_ok_lookup feed (fun _ => none) m h k
  rw [this]
  cases lastKeyed k feed <;> rfl

theorem buildLookupGo_skip (m0 : DateMap) (p q : List FeedEntry) (e : FeedEntry)
    (he : jsTruthy e.date = false) :
    buildLookupGo m0 (p ++ e :: q) = buildLookupGo m0 (p ++ q) := by
  induction p generalizing m0 with
  | nil =>
    simp only [List.nil_append, buildLookupGo]
    rw [if_neg (by simp [he])]
  | cons a p ih =>
    simp only [List.cons_append, buildLookupGo]
    by_cases ht : jsTruthy a.date = true
    · rw [if_pos ht, if_pos ht]
      cases hf : formatDateJS a.date with
      | none => rfl
      | some k => exact ih (mapSet m0 k a)
    · simp only [Bool.not_eq_true] at ht
      rw [if_neg (by simp [ht]), if_neg (by simp [ht])]
      exact ih m0
  
theorem buildLookupGo_ok_exists (l : List FeedEntry) (m0 : DateMap)
    (h : ∀ e ∈ l, jsTruthy e.date = true → (formatDateJS e.date).isSome) :
    ∃ m, buildLookupGo m0 l = .ok m := by
  induction l generalizing m0 with
  | nil => exact ⟨m0, rfl⟩
  | cons a rest ih =>
    simp only [buildLookupGo]
    by_cases ht : jsTruthy a.date = true
    · rw [if_pos ht]
      cases hf : formatDateJS a.date with
      | none =>
        have := h a (List.mem_cons_self a rest) ht
        rw [hf] at this
        simp at this
      | some k => exact ih (mapSet m0 k a) (fun e he hte => h e (List.mem_cons_of_mem a he) hte)
    · simp only [Bool.not_eq_true] at ht
      rw [if_neg (by simp [ht])]
      exact ih m0 (fun e he hte => h e (List.mem_cons_of_mem a he) hte)

theorem filter_key_len_le_one (k : String) (l : List FeedEntry)
    (hnd : (l.filterMap entryKey).Nodup) :
    (l.filter (fun e => entryKey e == some k)).length ≤ 1 := by
  induction l with
  | nil => simp
  | cons a rest ih =>
    have hndr : (rest.filterMap entryKey).Nodup :=
      List.Nodup.sublist (List.Sublist.filterMap entryKey (List.sublist_cons_self a rest)) hnd
    by_cases hk : entryKey a = some k
    · have hnone : ∀ x ∈ rest, ¬(entryKey x = some k) := by
        intro x hx hxk
        have hkm : k ∈ rest.filterMap entryKey := List.mem_filterMap.mpr ⟨x, hx, hxk⟩
        have hcons : (List.filterMap entryKey (a :: rest)) = k :: rest.filterMap entryKey := by
          simp [List.filterMap_cons, hk]
        rw [hcons] at hnd
        exact (List.nodup_cons.mp hnd).1 hkm
      have hrest : rest.filter (fun e => entryKey e == some k) = [] := by
        apply List.filter_eq_nil_iff.mpr
        intro x hx
        simpa using hnone x hx
      simp [List.filter_cons, hk, hrest]
    · have : (a :: rest).filter (fun e => entryKey e == some k) =
          rest.filter (fun e => entryKey e == some k) := by
        simp [List.filter_cons, hk]
      rw [this]
      exact ih hndr

theorem lastKeyed_perm (k : String) (l1 l2 : List FeedEntry) (hperm : l1.Perm l2)
    (hnd : (l1.filterMap entryKey).Nodup) : lastKeyed k l1 = lastKeyed k l2 := by
  have hnd2 : (l2.filterMap entryKey).Nodup := (hperm.filterMap entryKey).nodup_iff.mp hnd
  cases h1 : lastKeyed k l1 with
  | some e =>
    obtain ⟨hmem, hkey⟩ := lastKeyed_mem k l1 e h1
    exact (mem_lastKeyed k l2 e hnd2 (hperm.mem_iff.mp hmem) hkey).symm
  | none =>
    cases h2 : lastKeyed k l2 with
    | none => rfl
    | some e =>
      obtain ⟨hmem, hkey⟩ := lastKeyed_mem k l2 e h2
      have := mem_lastKeyed k l1 e hnd (hperm.mem_iff.mpr hmem) hkey
      rw [h1] at this
      exact absurd this (by simp)

theorem handleFetchResults_ok (tz : Tz) (startIso : String) (feed : List FeedEntry)
    (m : DateMap) (wanted : List String)
    (hm : buildLookup feed = .ok m) (hw : nineDatesFrom tz startIso = some wanted) :
    handleFetchResults tz startIso feed = .ok (wanted.filterMap m) := by
  unfold handleFetchResults
  rw [hm, hw]

theorem handleFetchResults_ok_inv (tz : Tz) (startIso : String) (feed : List FeedEntry)
    (res : List FeedEntry) (h : handleFetchResults tz startIso feed = .ok res) :
    ∃ m wanted, buildLookup feed = .ok m ∧ nineDatesFrom tz startIso = some wanted ∧
      res = wanted.filterMap m := by
  unfold handleFetchResults at h
  cases hm : buildLookup feed with
  | error u => rw [hm] at h; exact absurd h (by simp)
  | ok m =>
    rw [hm] at h
    cases hw : nineDatesFrom tz startIso with
    | none => rw [hw] at h; exact absurd h (by simp)
    | some wanted =>
      rw [hw] at h
      simp only [Except.ok.injEq] at h
      exact ⟨m, wanted, rfl, rfl, h.symm⟩

theorem mapM_norm_none (l : List FeedEntry) (h : ∃ e ∈ l, normalizeEntry e = none) :
    l.mapM normalizeEntry = none := by
  induction l with
  | nil => simp at h
  | cons a rest ih =>
    rw [List.mapM_cons]
    obtain ⟨e, he, hne⟩ := h
    rcases List.mem_cons.mp he with rfl | hmem
    · rw [hne]; rfl
    · cases hf : normalizeEntry a with
      | none => rfl
      | some b => rw [ih ⟨e, hmem, hne⟩]; rfl

theorem mapM_norm_some (l : List FeedEntry) (h : ∀ e ∈ l, (normalizeEntry e).isSome) :
    l.mapM normalizeEntry = some (l.filterMap normalizeEntry) := by
  induction l with
  | nil => rfl
  | cons a rest ih =>
    rw [List.mapM_cons]
    cases hf : normalizeEntry a with
    | none =>
      have := h a (List.mem_cons_self a rest)
      rw [hf] at this
      simp at this
    | some b =>
      rw [ih (fun e he => h e (List.mem_cons_of_mem a he))]
      simp [List.filterMap_cons, hf]


theorem nineDatesFrom_length (tz : Tz) (s : String) (w : List String)
    (h : nineDatesFrom tz s = some w) : w.length = 9 := by
  unfold nineDatesFrom at h
  cases hp : parseISODate s with
  | none => rw [hp] at h; exact absurd h (by simp)
  | some t =>
    rw [hp] at h
    simp only [Option.map_some', Option.some.injEq] at h
    rw [← h]
    simp

theorem buildLookup_entryKey (feed : List FeedEntry) (m : DateMap)
    (hm : buildLookup feed = .ok m) (k : String) (e : FeedEntry) (hme : m k = some e) :
    e ∈ feed ∧ entryKey e = some k := by
  rw [buildLookup_ok_lookup feed m hm k] at hme
  exact lastKeyed_mem k feed e hme

theorem result_entry_timestamp (feed : List FeedEntry) (m : DateMap)
    (hm : buildLookup feed = .ok m) (z : Int)
    (hz0 : 0 ≤ (civilFromDays z).1) (hz1 : (civilFromDays z).1 ≤ 9999)
    (e : FeedEntry) (hme : m (isoStringOfDay z) = some e) :
    jsNewDate e.date = some (1440 * z) := by
  obtain ⟨hmem, hkey⟩ := buildLookup_entryKey feed m hm _ e hme
  obtain ⟨ht, hfmt⟩ := entryKey_truthy e _ hkey
  cases hdv : e.date with
  | null => rw [hdv] at ht; exact absurd ht (by simp [jsTruthy])
  | undef => rw [hdv] at ht; exact absurd ht (by simp [jsTruthy])
  | str s =>
    rw [hdv] at hfmt
    simp only [formatDateJS, jsNewDate] at hfmt
    cases hp : parseISODate s with
    | none => rw [hp] at hfmt; exact absurd hfmt (by simp)
    | some te =>
      rw [hp] at hfmt
      simp only [Option.map_some', Option.some.injEq] at hfmt
      obtain ⟨hte, h0, h1⟩ := parseISODate_spec s te hp
      have hinj := isoStringOfDay_inj (te / 1440) z h0 h1 hz0 hz1 hfmt
      simp only [jsNewDate, hp, Option.some.injEq]
      omega

theorem wanted_nodup (z : Int)
    (hz0 : 0 ≤ (civilFromDays z).1) (hyr : (civilFromDays (z + 8)).1 ≤ 9999) :
    ((List.range 9).map (fun (i : Nat) => isoStringOfDay (z + (i : Int)))).Nodup := by
  have hpw : (List.range 9).Pairwise (fun i j => i < j ∧ j < 9) := by decide
  have hyri : ∀ i : Nat, i < 9 → 0 ≤ (civilFromDays (z + (i : Int))).1 ∧
      (civilFromDays (z + (i : Int))).1 ≤ 9999 := by
    intro i hi
    constructor
    · exact le_trans hz0 (yearOfDay_mono z (z + i) (by omega))
    · exact le_trans (yearOfDay_mono (z + i) (z + 8) (by omega)) hyr
  unfold List.Nodup
  rw [List.pairwise_map]
  apply List.Pairwise.imp_of_mem ?_ hpw
  intro i j hi hj ⟨hij, hj9⟩
  intro heq
  have h1 := hyri i (by omega)
  have h2 := hyri j hj9
  have := isoStringOfDay_inj _ _ h1.1 h1.2 h2.1 h2.2 heq
  omega

theorem result_keys_sublist (wanted : List String) (feed : List FeedEntry) (m : DateMap)
    (hm : buildLookup feed = .ok m) :
    ((wanted.filterMap m).filterMap (fun e => formatDateJS e.date)).Sublist wanted := by
  induction wanted with
  | nil => simp
  | cons d rest ih =>
    rw [List.filterMap_cons]
    cases hmd : m d with
    | none => exact (ih).cons d
    | some e =>
      rw [List.filterMap_cons]
      obtain ⟨_, hkey⟩ := buildLookup_entryKey feed m hm d e hmd
      obtain ⟨_, hfmt⟩ := entryKey_truthy e d hkey
      rw [hfmt]
      exact (ih).cons₂ d

theorem result_no_key (ws : List String) (feed : List FeedEntry) (m : DateMap)
    (hm : buildLookup feed = .ok m) (k : String) (hnk : k ∉ ws) :
    (ws.filterMap m).filter (fun e => entryKey e == some k) = [] := by
  induction ws with
  | nil => rfl
  | cons d rest ih =>
    have hdk : d ≠ k := fun hc => hnk (hc ▸ List.mem_cons_self d rest)
    have hrest := ih (fun hc => hnk (List.mem_cons_of_mem d hc))
    rw [List.filterMap_cons]
    cases hmd : m d with
    | none => exact hrest
    | some e =>
      obtain ⟨_, hkey⟩ := buildLookup_entryKey feed m hm d e hmd
      rw [List.filter_cons, if_neg (by simp [hkey, hdk]), hrest]

theorem result_filter_key_single (ws : List String) (feed : List FeedEntry) (m : DateMap)
    (hm : buildLookup feed = .ok m) (k : String) (e2 : FeedEntry)
    (hcount : ws.count k = 1) (hmk : m k = some e2) :
    (ws.filterMap m).filter (fun e => entryKey e == some k) = [e2] := by
  induction ws with
  | nil => simp at hcount
  | cons d rest ih =>
    rw [List.filterMap_cons]
    by_cases hdk : d = k
    · subst hdk
      have hrest0 : rest.count d = 0 := by
        have := List.count_cons_self d rest
        omega
      have hnk : d ∉ rest := by
        intro hc
        have := List.count_pos_iff.mpr hc
        omega
      obtain ⟨_, hkey⟩ := buildLookup_entryKey feed m hm d e2 hmk
      rw [hmk, List.filter_cons, if_pos (by simp [hkey])]
      rw [result_no_key rest feed m hm d hnk]
    · have hcount' : rest.count k = 1 := by
        have := List.count_cons k d rest
        rw [this] at hcount
        simpa [hdk] using hcount
      cases hmd : m d with
      | none => exact ih hcount'
      | some e =>
        obtain ⟨_, hkey⟩ := buildLookup_entryKey feed m hm d e hmd
        rw [List.filter_cons, if_neg (by simp [hkey, hdk])]
        exact ih hcount'

theorem lastKeyed_append (k : String) (xs ys : List FeedEntry) :
    lastKeyed k (xs ++ ys) = match lastKeyed k ys with
      | some e => some e
      | none => lastKeyed k xs := by
  induction xs with
  | nil => simp only [List.nil_append, lastKeyed]; cases lastKeyed k ys <;> rfl
  | cons a rest ih =>
    simp only [List.cons_append, lastKeyed, List.append_eq]
    rw [ih]
    cases lastKeyed k ys <;> cases lastKeyed k rest <;> rfl

theorem lastKeyed_structured (p q r : List FeedEntry) (e1 e2 : FeedEntry) (k : String)
    (h2 : entryKey e2 = some k) (hr : ∀ x ∈ r, entryKey x ≠ some k) :
    lastKeyed k (p ++ e1 :: (q ++ e2 :: r)) = some e2 := by
  have hrn : lastKeyed k r = none := lastKeyed_eq_none k r hr
  have h1 : lastKeyed k (e2 :: r) = some e2 := by
    simp only [lastKeyed, hrn]
    rw [if_pos h2]
  have h2' : lastKeyed k (q ++ e2 :: r) = some e2 := by
    rw [lastKeyed_append, h1]
  have h3 : lastKeyed k (e1 :: (q ++ e2 :: r)) = some e2 := by
    simp only [lastKeyed, h2']
  rw [lastKeyed_append, h3]

theorem lastKeyed_isSome (k : String) (l : List FeedEntry) (e : FeedEntry)
    (he : e ∈ l) (hk : entryKey e = some k) : (lastKeyed k l).isSome := by
  induction l with
  | nil => simp at he
  | cons a rest ih =>
    rcases List.mem_cons.mp he with rfl | hmem
    · simp only [lastKeyed]
      cases hr : lastKeyed k rest with
      | some e' => simp
      | none => rw [if_pos hk]; simp
    · simp only [lastKeyed]
      have := ih hmem
      cases hr : lastKeyed k rest with
      | some e' => simp
      | none => rw [hr] at this; simp at this


/-- Claim C2: for any timezone, start date and loaded feed, a successfully
reconciled result has at most 9 entries, every entry's normalized date is a
member of the computed window, and an empty feed yields an empty result. -/
theorem claim_c2_result_bounded (tz : Tz) (startIso : String)
    (feed res : List FeedEntry) (wanted : List String)
    (hw : nineDatesFrom tz startIso = some wanted)
    (hr : handleFetchResults tz startIso feed = .ok res) :
    res.length ≤ 9 ∧ (∀ e ∈ res, ∃ d ∈ wanted, formatDateJS e.date = some d) ∧
      (feed = [] → res = []) := by
  obtain ⟨m, wanted', hm, hw', hres⟩ := handleFetchResults_ok_inv tz startIso feed res hr
  rw [hw] at hw'
  have hww : wanted = wanted' := by injection hw'
  subst hww
  refine ⟨?_, ?_, ?_⟩
  · rw [hres]
    have h9 := nineDatesFrom_length tz startIso wanted hw
    calc (wanted.filterMap m).length ≤ wanted.length := List.length_filterMap_le m wanted
      _ = 9 := h9
  · intro e he
    rw [hres] at he
    obtain ⟨d, hd, hmd⟩ := List.mem_filterMap.mp he
    obtain ⟨_, hkey⟩ := buildLookup_entryKey feed m hm d e hmd
    obtain ⟨_, hfmt⟩ := entryKey_truthy e d hkey
    exact ⟨d, hd, hfmt⟩
  · intro hfeed
    subst hfeed
    have hm0 : buildLookup ([] : List FeedEntry) = .ok (fun _ => none) := rfl
    rw [hm0] at hm
    have hmeq : (fun _ => none : DateMap) = m := by injection hm
    rw [hres, ← hmeq]
    simp

theorem claim_c2_witness :
    ([⟨JSVal.str "2021-06-20", "A"⟩] : List FeedEntry).length ≤ 9 ∧
      (∀ e ∈ ([⟨JSVal.str "2021-06-20", "A"⟩] : List FeedEntry),
        ∃ d ∈ (["2021-06-20", "2021-06-21", "2021-06-22", "2021-06-23", "2021-06-24",
          "2021-06-25", "2021-06-26", "2021-06-27", "2021-06-28"] : List String),
          formatDateJS e.date = some d) ∧
      (([⟨JSVal.str "2021-06-20", "A"⟩, ⟨JSVal.str "2021-07-01", "C"⟩] :
          List FeedEntry) = [] → ([⟨JSVal.str "2021-06-20", "A"⟩] : List FeedEntry) = []) :=
  claim_c2_result_bounded tz0 "2021-06-20"
    [⟨JSVal.str "2021-06-20", "A"⟩, ⟨JSVal.str "2021-07-01", "C"⟩]
    [⟨JSVal.str "2021-06-20", "A"⟩]
    ["2021-06-20", "2021-06-21", "2021-06-22", "2021-06-23", "2021-06-24",
      "2021-06-25", "2021-06-26", "2021-06-27", "2021-06-28"]
    (by decide) (by rfl)

/-- Claim C1 (failing evaluation): under a Central-European-style timezone
containing the 2021 spring DST transition, the window computed from start date
2021-03-27 lists "2021-03-28" twice and stops at "2021-04-03" instead of
reaching "2021-04-04" — the day arithmetic mixes UTC parsing with local-time
`getDate`/`setDate` and is therefore affected by the transition. Under the UTC
timezone the same start date yields the 9 consecutive dates, and a leap-year
end-of-February start rolls over into March correctly. -/
theorem claim_c1_dst_affected :
    nineDatesFrom cetSpring2021 "2021-03-27" =
        some ["2021-03-27", "2021-03-28", "2021-03-28", "2021-03-29", "2021-03-30",
          "2021-03-31", "2021-04-01", "2021-04-02", "2021-04-03"] ∧
      nineDatesFrom tz0 "2021-03-27" =
        some ["2021-03-27", "2021-03-28", "2021-03-29", "2021-03-30", "2021-03-31",
          "2021-04-01", "2021-04-02", "2021-04-03", "2021-04-04"] ∧
      nineDatesFrom tz0 "2020-02-25" =
        some ["2020-02-25", "2020-02-26", "2020-02-27", "2020-02-28", "2020-02-29",
          "2020-03-01", "2020-03-02", "2020-03-03", "2020-03-04"] := by
  refine ⟨by decide, by decide, by decide⟩

/-- Claim C8: the spec's concrete example — start date 2021-06-20 gives the
window 2021-06-20 … 2021-06-28, and a feed with entries dated 2021-06-20,
2021-06-22 and 2021-07-01 reconciles to exactly the first two, in order. -/
theorem claim_c8_example :
    nineDatesFrom tz0 "2021-06-20" =
        some ["2021-06-20", "2021-06-21", "2021-06-22", "2021-06-23", "2021-06-24",
          "2021-06-25", "2021-06-26", "2021-06-27", "2021-06-28"] ∧
      handleFetchResults tz0 "2021-06-20"
          [⟨JSVal.str "2021-06-20", "A"⟩, ⟨JSVal.str "2021-06-22", "B"⟩,
            ⟨JSVal.str "2021-07-01", "C"⟩] =
        .ok [⟨JSVal.str "2021-06-20", "A"⟩, ⟨JSVal.str "2021-06-22", "B"⟩] :=
  ⟨by decide, by rfl⟩

/-- Claim C5 (counterexample): a successful array response containing an entry
with an unparseable date makes the loader return the empty array, not the
normalized elements. -/
theorem claim_c5_counterexample :
    fetchClassFeed (.arrayResp [⟨JSVal.str "garbage", "x"⟩, ⟨JSVal.str "2021-06-20", "y"⟩]) = [] ∧
      ([⟨JSVal.str "garbage", "x"⟩, ⟨JSVal.str "2021-06-20", "y"⟩] : List FeedEntry) ≠ [] :=
  ⟨by rfl, by simp⟩

/-- Claim C5 (amended): network failure, non-success status and non-array
bodies all give the empty sequence without propagating an error; an array
response whose entries' dates all parse is returned with every date
normalized; an array response with any unparseable date gives the empty
sequence. -/
theorem claim_c5_loader_policy :
    fetchClassFeed .netError = [] ∧ (∀ st, fetchClassFeed (.httpError st) = []) ∧
      fetchClassFeed .notArray = [] ∧
      (∀ items, (∀ e ∈ items, (normalizeEntry e).isSome) →
        fetchClassFeed (.arrayResp items) = items.filterMap normalizeEntry) ∧
      (∀ items, (∃ e ∈ items, normalizeEntry e = none) →
        fetchClassFeed (.arrayResp items) = []) := by
  refine ⟨rfl, fun st => rfl, rfl, ?_, ?_⟩
  · intro items h
    simp only [fetchClassFeed]
    rw [mapM_norm_some items h]
  · intro items h
    simp only [fetchClassFeed]
    rw [mapM_norm_none items h]

theorem claim_c5_witness :
    fetchClassFeed (.arrayResp [⟨JSVal.str "2021-06-20", "y"⟩]) =
        ([⟨JSVal.str "2021-06-20", "y"⟩] : List FeedEntry).filterMap normalizeEntry ∧
      fetchClassFeed (.arrayResp [⟨JSVal.str "garbage", "x"⟩]) = [] :=
  ⟨claim_c5_loader_policy.2.2.2.1 _ (by decide),
    claim_c5_loader_policy.2.2.2.2 _ ⟨⟨JSVal.str "garbage", "x"⟩, by simp, by rfl⟩⟩

/-- Claim C6 (counterexample): one unparseable date drops the whole feed — the
well-formed entry dated 2021-06-20 is not available to the reconciler when the
"junk"-dated entry is present, though it is when that entry is absent. -/
theorem claim_c6_counterexample :
    fetchClassFeed (.arrayResp [⟨JSVal.str "2021-06-20", "good"⟩, ⟨JSVal.str "junk", "bad"⟩]) = [] ∧
      handleFetchResults tz0 "2021-06-20"
          (fetchClassFeed (.arrayResp [⟨JSVal.str "2021-06-20", "good"⟩, ⟨JSVal.str "junk", "bad"⟩])) =
        .ok [] ∧
      handleFetchResults tz0 "2021-06-20"
          (fetchClassFeed (.arrayResp [⟨JSVal.str "2021-06-20", "good"⟩])) =
        .ok [⟨JSVal.str "2021-06-20", "good"⟩] :=
  ⟨by rfl, by rfl, by rfl⟩

/-- Claim C6 (amended): an unparseable entry date degrades at whole-feed
scope — the loader returns the empty sequence, so no entry of that feed
(well-formed or not) reaches the lookup, and the reconciled result is empty. -/
theorem claim_c6_whole_feed_degradation (items : List FeedEntry) (startIso : String) (t : Int)
    (hbad : ∃ e ∈ items, normalizeEntry e = none)
    (hp : parseISODate startIso = some t) :
    fetchClassFeed (.arrayResp items) = [] ∧
      handleFetchResults tz0 startIso (fetchClassFeed (.arrayResp items)) = .ok [] := by
  have h1 : fetchClassFeed (.arrayResp items) = [] := by
    simp only [fetchClassFeed]
    rw [mapM_norm_none items hbad]
  refine ⟨h1, ?_⟩
  rw [h1]
  have hw := nineDatesFrom_tz0 startIso t hp
  have := handleFetchResults_ok tz0 startIso [] (fun _ => none) _ rfl hw
  rw [this]
  simp

theorem claim_c6_witness :
    fetchClassFeed (.arrayResp [⟨JSVal.str "2021-06-20", "good"⟩, ⟨JSVal.str "junk", "bad"⟩]) = [] ∧
      handleFetchResults tz0 "2021-06-20"
          (fetchClassFeed (.arrayResp [⟨JSVal.str "2021-06-20", "good"⟩, ⟨JSVal.str "junk", "bad"⟩])) =
        .ok [] :=
  claim_c6_whole_feed_degradation
    [⟨JSVal.str "2021-06-20", "good"⟩, ⟨JSVal.str "junk", "bad"⟩] "2021-06-20" 27069120
    ⟨⟨JSVal.str "junk", "bad"⟩, by simp, by rfl⟩ (by decide)

/-- Claim C7: with the loading element and button present in the page, a
`handleFetch` run with a non-empty start date disables the button
(`setLoading(true)`), and — whatever the fetch outcome and whether
reconciliation succeeds or throws — the `finally` re-enables it: the final
state has the button enabled and the log is exactly disable-then-enable. -/
theorem claim_c7_loading_toggle (dom : Dom) (tz : Tz) (startIso : String)
    (o : FetchOutcome) (st : UiState)
    (hs : startIso ≠ "") (hl : dom.loadingPresent = true) (hb : dom.btnPresent = true) :
    (setLoading dom true st).btnDisabled = true ∧
      (handleFetch dom tz startIso o st).1.btnDisabled = false ∧
      (handleFetch dom tz startIso o st).1.log = st.log ++ [true, false] := by
  unfold handleFetch setLoading
  rw [if_neg hs]
  simp [hl, hb]

theorem claim_c7_witness :
    (setLoading ⟨true, true⟩ true ⟨false, true, []⟩).btnDisabled = true ∧
      (handleFetch ⟨true, true⟩ tz0 "2021-06-20" FetchOutcome.netError
        ⟨false, true, []⟩).1.btnDisabled = false ∧
      (handleFetch ⟨true, true⟩ tz0 "2021-06-20" FetchOutcome.netError
        ⟨false, true, []⟩).1.log = ([] : List Bool) ++ [true, false] :=
  claim_c7_loading_toggle ⟨true, true⟩ tz0 "2021-06-20" FetchOutcome.netError
    ⟨false, true, []⟩ (by decide) rfl rfl

/-- Claim C9: `formatDate` is idempotent on its own output — whenever a feed
value normalizes to a date string, normalizing that string again returns it
unchanged. -/
theorem claim_c9_formatDate_idempotent (v : JSVal) (s : String)
    (h : formatDateJS v = some s) : formatDateJS (JSVal.str s) = some s := by
  have key : ∀ t : Int, jsNewDate v = some t → 0 ≤ (civilFromDays (t / 1440)).1 →
      (civilFromDays (t / 1440)).1 ≤ 9999 → formatDateJS (JSVal.str s) = some s := by
    intro t hv h0 h1
    have hs : s = isoStringOfDay (t / 1440) := by
      simp only [formatDateJS, hv, Option.map_some', Option.some.injEq] at h
      exact h.symm
    have hpr := parse_isoStringOfDay (t / 1440) h0 h1
    rw [hs]
    simp only [formatDateJS, jsNewDate, hpr, Option.map_some', Option.some.injEq]
    congr 1
    omega
  cases v with
  | undef => simp [formatDateJS, jsNewDate] at h
  | null => exact key 0 rfl (by decide) (by decide)
  | str s0 =>
    cases hp : parseISODate s0 with
    | none => simp [formatDateJS, jsNewDate, hp] at h
    | some t =>
      obtain ⟨_, h0, h1⟩ := parseISODate_spec s0 t hp
      exact key t (by simp [jsNewDate, hp]) h0 h1

theorem claim_c9_witness : formatDateJS (JSVal.str "2021-06-20") = some "2021-06-20" :=
  claim_c9_formatDate_idempotent (JSVal.str "2021-06-20") "2021-06-20" (by decide)

/-- Claim C10: an entry whose date field is falsy (`undefined`, `null` or the
empty string) is skipped by the lookup guard: removing it leaves the
reconciled result unchanged, and it never appears in the result. -/
theorem claim_c10_falsy_excluded (tz : Tz) (startIso : String)
    (p q : List FeedEntry) (e : FeedEntry) (res : List FeedEntry)
    (hfalsy : jsTruthy e.date = false)
    (hr : handleFetchResults tz startIso (p ++ e :: q) = .ok res) :
    handleFetchResults tz startIso (p ++ q) = .ok res ∧ e ∉ res := by
  have hskip : buildLookup (p ++ e :: q) = buildLookup (p ++ q) :=
    buildLookupGo_skip (fun _ => none) p q e hfalsy
  constructor
  · unfold handleFetchResults at hr ⊢
    rw [show buildLookup (p ++ q) = buildLookup (p ++ e :: q) from hskip.symm]
    exact hr
  · intro hmem
    obtain ⟨m, w, hm, hw, hres⟩ := handleFetchResults_ok_inv _ _ _ _ hr
    rw [hres] at hmem
    obtain ⟨d, hd, hmd⟩ := List.mem_filterMap.mp hmem
    obtain ⟨_, hkey⟩ := buildLookup_entryKey _ m hm d e hmd
    obtain ⟨ht, _⟩ := entryKey_truthy e d hkey
    rw [hfalsy] at ht
    exact absurd ht (by simp)

theorem claim_c10_witness :
    handleFetchResults tz0 "2021-06-20" [⟨JSVal.str "2021-06-20", "good"⟩] =
        .ok [⟨JSVal.str "2021-06-20", "good"⟩] ∧
      (⟨JSVal.undef, "ghost"⟩ : FeedEntry) ∉
        ([⟨JSVal.str "2021-06-20", "good"⟩] : List FeedEntry) :=
  claim_c10_falsy_excluded tz0 "2021-06-20" [⟨JSVal.str "2021-06-20", "good"⟩] []
    ⟨JSVal.undef, "ghost"⟩ [⟨JSVal.str "2021-06-20", "good"⟩] (by rfl) (by rfl)


/-- Claim C3: with no duplicate lookup keys, two feeds that are permutations
of each other reconcile to the same result; the result's entry timestamps are
strictly ascending and its normalized dates form a subsequence of the window
(window-date order). -/
theorem claim_c3_order_invariance (startIso : String) (t : Int)
    (f1 f2 r1 r2 : List FeedEntry) (wanted : List String)
    (hp : parseISODate startIso = some t)
    (hyr : (civilFromDays (t / 1440 + 8)).1 ≤ 9999)
    (hperm : f1.Perm f2)
    (hnd : (f1.filterMap entryKey).Nodup)
    (hw : nineDatesFrom tz0 startIso = some wanted)
    (h1 : handleFetchResults tz0 startIso f1 = .ok r1)
    (h2 : handleFetchResults tz0 startIso f2 = .ok r2) :
    r1 = r2 ∧ List.Sorted (· < ·) (r1.filterMap (fun e => jsNewDate e.date)) ∧
      (r1.filterMap (fun e => formatDateJS e.date)).Sublist wanted := by
  obtain ⟨ht0, hz0, hz1⟩ := parseISODate_spec startIso t hp
  obtain ⟨m1, w1, hm1, hw1, hres1⟩ := handleFetchResults_ok_inv _ _ _ _ h1
  obtain ⟨m2, w2, hm2, hw2, hres2⟩ := handleFetchResults_ok_inv _ _ _ _ h2
  rw [hw] at hw1 hw2
  have hww1 : wanted = w1 := by injection hw1
  have hww2 : wanted = w2 := by injection hw2
  subst hww1
  subst hww2
  have hyri : ∀ i : Nat, i < 9 → 0 ≤ (civilFromDays (t / 1440 + (i : Int))).1 ∧
      (civilFromDays (t / 1440 + (i : Int))).1 ≤ 9999 := by
    intro i hi
    constructor
    · exact le_trans hz0 (yearOfDay_mono (t / 1440) (t / 1440 + i) (by omega))
    · exact le_trans (yearOfDay_mono (t / 1440 + i) (t / 1440 + 8) (by omega)) hyr
  have hr12 : r1 = r2 := by
    have hmm : m1 = m2 := by
      funext k
      rw [buildLookup_ok_lookup f1 m1 hm1 k, buildLookup_ok_lookup f2 m2 hm2 k]
      exact lastKeyed_perm k f1 f2 hperm hnd
    rw [hres1, hres2, hmm]
  refine ⟨hr12, ?_, ?_⟩
  · have hwform := nineDatesFrom_tz0 startIso t hp
    rw [hw] at hwform
    have hwl : wanted =
        (List.range 9).map (fun (i : Nat) => isoStringOfDay (t / 1440 + (i : Int))) := by
      injection hwform
    rw [hres1, hwl, List.filterMap_map, List.filterMap_filterMap]
    have hpw : (List.range 9).Pairwise (fun i j => i < j ∧ j < 9) := by decide
    apply List.Pairwise.filterMap _ ?_ hpw
    intro a b ⟨hab, hb9⟩ x hx y hy
    simp only [Function.comp] at hx hy
    obtain ⟨ea, hea, hxa⟩ := Option.bind_eq_some.mp hx
    obtain ⟨eb, heb, hyb⟩ := Option.bind_eq_some.mp hy
    have ha' := hyri a (by omega)
    have hb' := hyri b hb9
    have hta := result_entry_timestamp f1 m1 hm1 (t / 1440 + (a : Int)) ha'.1 ha'.2 ea hea
    have htb := result_entry_timestamp f1 m1 hm1 (t / 1440 + (b : Int)) hb'.1 hb'.2 eb heb
    rw [hta] at hxa
    rw [htb] at hyb
    simp only [Option.some.injEq] at hxa hyb
    omega
  · rw [hres1]
    exact result_keys_sublist wanted f1 m1 hm1

theorem claim_c3_witness :
    ([⟨JSVal.str "2021-06-20", "A"⟩, ⟨JSVal.str "2021-06-22", "B"⟩] : List FeedEntry) =
        [⟨JSVal.str "2021-06-20", "A"⟩, ⟨JSVal.str "2021-06-22", "B"⟩] ∧
      List.Sorted (· < ·)
        (([⟨JSVal.str "2021-06-20", "A"⟩, ⟨JSVal.str "2021-06-22", "B"⟩] :
          List FeedEntry).filterMap (fun e => jsNewDate e.date)) ∧
      (([⟨JSVal.str "2021-06-20", "A"⟩, ⟨JSVal.str "2021-06-22", "B"⟩] :
          List FeedEntry).filterMap (fun e => formatDateJS e.date)).Sublist
        ["2021-06-20", "2021-06-21", "2021-06-22", "2021-06-23", "2021-06-24",
          "2021-06-25", "2021-06-26", "2021-06-27", "2021-06-28"] :=
  claim_c3_order_invariance "2021-06-20" 27069120
    [⟨JSVal.str "2021-06-22", "B"⟩, ⟨JSVal.str "2021-06-20", "A"⟩]
    [⟨JSVal.str "2021-06-20", "A"⟩, ⟨JSVal.str "2021-06-22", "B"⟩]
    [⟨JSVal.str "2021-06-20", "A"⟩, ⟨JSVal.str "2021-06-22", "B"⟩]
    [⟨JSVal.str "2021-06-20", "A"⟩, ⟨JSVal.str "2021-06-22", "B"⟩]
    ["2021-06-20", "2021-06-21", "2021-06-22", "2021-06-23", "2021-06-24",
      "2021-06-25", "2021-06-26", "2021-06-27", "2021-06-28"]
    (by decide) (by decide)
    (List.Perm.swap _ _ _) (by decide) (by decide) (by rfl) (by rfl)

/-- Claim C4: if exactly two entries of the feed share a normalized date that
is in the window, the result contains exactly one entry for that date, namely
the later of the two in feed order (last-write-wins); and an entry whose
(unique) date matches a window date appears exactly once in the result. -/
theorem claim_c4_last_write_wins (startIso : String) (t : Int) (wanted : List String)
    (hp : parseISODate startIso = some t)
    (hyr : (civilFromDays (t / 1440 + 8)).1 ≤ 9999)
    (hw : nineDatesFrom tz0 startIso = some wanted) :
    (∀ (p q r : List FeedEntry) (e1 e2 : FeedEntry) (k : String) (res : List FeedEntry),
        entryKey e1 = some k → entryKey e2 = some k →
        (∀ x ∈ p, entryKey x ≠ some k) → (∀ x ∈ q, entryKey x ≠ some k) →
        (∀ x ∈ r, entryKey x ≠ some k) → k ∈ wanted →
        handleFetchResults tz0 startIso (p ++ e1 :: (q ++ e2 :: r)) = .ok res →
        res.filter (fun e => entryKey e == some k) = [e2]) ∧
      (∀ (feed : List FeedEntry) (e : FeedEntry) (k : String) (res : List FeedEntry),
        e ∈ feed → entryKey e = some k →
        (∀ x ∈ feed, entryKey x = some k → x = e) → k ∈ wanted →
        handleFetchResults tz0 startIso feed = .ok res →
        res.count e = 1) := by
  obtain ⟨ht0, hz0, hz1⟩ := parseISODate_spec startIso t hp
  have hwform := nineDatesFrom_tz0 startIso t hp
  rw [hw] at hwform
  have hwl : wanted =
      (List.range 9).map (fun (i : Nat) => isoStringOfDay (t / 1440 + (i : Int))) := by
    injection hwform
  have hnodup : wanted.Nodup := by
    rw [hwl]
    exact wanted_nodup (t / 1440) hz0 hyr
  constructor
  · intro p q r e1 e2 k res hk1 hk2 hpn hqn hrn hkw hres
    obtain ⟨m, w', hm, hw', hresr⟩ := handleFetchResults_ok_inv _ _ _ _ hres
    rw [hw] at hw'
    have hww : wanted = w' := by injection hw'
    subst hww
    have hcount : wanted.count k = 1 := List.count_eq_one_of_mem hnodup hkw
    have hlast : lastKeyed k (p ++ e1 :: (q ++ e2 :: r)) = some e2 :=
      lastKeyed_structured p q r e1 e2 k hk2 hrn
    have hmk : m k = some e2 := by
      rw [buildLookup_ok_lookup _ m hm k, hlast]
    rw [hresr]
    exact result_filter_key_single wanted _ m hm k e2 hcount hmk
  · intro feed e k res hmem hke huniq hkw hres
    obtain ⟨m, w', hm, hw', hresr⟩ := handleFetchResults_ok_inv _ _ _ _ hres
    rw [hw] at hw'
    have hww : wanted = w' := by injection hw'
    subst hww
    have hcount : wanted.count k = 1 := List.count_eq_one_of_mem hnodup hkw
    have hsome := lastKeyed_isSome k feed e hmem hke
    obtain ⟨e', he'⟩ := Option.isSome_iff_exists.mp hsome
    obtain ⟨hmem', hke'⟩ := lastKeyed_mem k feed e' he'
    have hee : e' = e := huniq e' hmem' hke'
    subst hee
    have hmk : m k = some e' := by rw [buildLookup_ok_lookup _ m hm k, he']
    have hfk := result_filter_key_single wanted feed m hm k e' hcount hmk
    rw [hresr]
    have hcf : ((wanted.filterMap m).filter (fun x => entryKey x == some k)).count e' =
        (wanted.filterMap m).count e' := by
      apply List.count_filter
      simp [hke']
    rw [← hcf, hfk]
    simp

theorem claim_c4_witness :
    (([⟨JSVal.str "2021-06-22", "B2"⟩] : List FeedEntry).filter
        (fun e => entryKey e == some "2021-06-22") = [⟨JSVal.str "2021-06-22", "B2"⟩]) ∧
      ([⟨JSVal.str "2021-06-20", "A"⟩] : List FeedEntry).count
        ⟨JSVal.str "2021-06-20", "A"⟩ = 1 := by
  have h := claim_c4_last_write_wins "2021-06-20" 27069120
    ["2021-06-20", "2021-06-21", "2021-06-22", "2021-06-23", "2021-06-24",
      "2021-06-25", "2021-06-26", "2021-06-27", "2021-06-28"]
    (by decide) (by decide) (by decide)
  constructor
  · exact h.1 [] [] [] ⟨JSVal.str "2021-06-22", "B1"⟩ ⟨JSVal.str "2021-06-22", "B2"⟩
      "2021-06-22" [⟨JSVal.str "2021-06-22", "B2"⟩]
      (by decide) (by decide) (by simp) (by simp) (by simp) (by decide) (by rfl)
  · exact h.2 [⟨JSVal.str "2021-06-20", "A"⟩] ⟨JSVal.str "2021-06-20", "A"⟩
      "2021-06-20" [⟨JSVal.str "2021-06-20", "A"⟩]
      (by simp) (by decide) (by intro x hx _; simpa using hx) (by decide) (by rfl)

end SpaceExplorer
